import Mathlib

/-!
Verification of the mailang.js IR compiler, stack VM, indicator library and
ring buffer, as a shallow embedding in Lean 4.

JavaScript numbers are modelled as rationals (ℚ); the tagged runtime value of
the VM gains an explicit constructor for the JavaScript `undefined` (array
holes, missing results) next to the language-level `null`.  Window sizes of
the rolling indicators are modelled as naturals: every specified use of a
window has a positive integral size.
-/

deriving instance DecidableEq for Except

namespace Mai

/-- Tagged runtime value of the VM: 64-bit float (modelled exactly as ℚ),
boolean, string, the language `null`, and the JavaScript `undefined`. -/
inductive Value where
  | num (q : ℚ)
  | bool (b : Bool)
  | str (s : String)
  | null
  | undef
deriving DecidableEq, Repr

/-- First-match lookup in an association list (JS object / Map read). -/
def lookupA {κ α : Type} [DecidableEq κ] (l : List (κ × α)) (k : κ) : Option α :=
  match l with
  | [] => none
  | (k', v) :: rest => if k' = k then some v else lookupA rest k

/-- Upsert in an association list: JS object property write keeps the original
insertion position of an existing key and appends a fresh key. -/
def setA {κ α : Type} [DecidableEq κ] (l : List (κ × α)) (k : κ) (v : α) : List (κ × α) :=
  match l with
  | [] => [(k, v)]
  | (k', v') :: rest => if k' = k then (k', v) :: rest else (k', v') :: setA rest k v

/-!
## Ring buffer (src/src/utils/ring-buffer.ts)

`buffer` is the backing JS array: a cell is `none` for a hole (never written,
reads as `undefined`) and `some x` once written.  `capacity` is fixed at
construction; the source constructor throws for capacity ≤ 0, which callers
surface, so the operations below are stated on an arbitrary capacity and the
claims carry the positivity hypothesis.
-/

structure RingBuf (α : Type) where
  buffer : List (Option α)
  head : Nat
  tail : Nat
  size : Nat
  capacity : Nat
deriving DecidableEq, Repr

namespace RingBuf

/-- Fresh buffer of the given capacity (all cells are holes). -/
def new (α : Type) (capacity : Nat) : RingBuf α :=
  { buffer := List.replicate capacity none, head := 0, tail := 0, size := 0, capacity }

/-- Method `push(item)`: write at `tail`, advance `tail`; when the buffer is full the
cell at `head` is returned as evicted and `head` advances, otherwise `size`
grows.  Returns (evicted, new buffer). -/
def push {α : Type} (rb : RingBuf α) (item : α) : Option α × RingBuf α :=
  let evicted : Option α :=
    if rb.size = rb.capacity then (rb.buffer[rb.head]?).join else none
  let buffer := rb.buffer.set rb.tail (some item)
  let tail := (rb.tail + 1) % rb.capacity
  if rb.size < rb.capacity then
    (evicted, { rb with buffer := buffer, tail := tail, size := rb.size + 1 })
  else
    (evicted, { rb with buffer := buffer, tail := tail, head := (rb.head + 1) % rb.capacity })

/-- Method `get(index)`: `index` is a JS number that may be negative; out of
[0, size) reads as `undefined`, otherwise the cell at `(head+index) % capacity`. -/
def get {α : Type} (rb : RingBuf α) (index : Int) : Option α :=
  if index < 0 ∨ (rb.size : Int) ≤ index then none
  else (rb.buffer[(rb.head + index.toNat) % rb.capacity]?).join

/-- Reading `get` at a natural index. -/
def getN {α : Type} (rb : RingBuf α) (i : Nat) : Option α := rb.get (i : Int)

/-- Method `len()`. -/
def len {α : Type} (rb : RingBuf α) : Nat := rb.size

/-- Method `full()`. -/
def full {α : Type} (rb : RingBuf α) : Bool := rb.size = rb.capacity

/-- Method `cap()`. -/
def cap {α : Type} (rb : RingBuf α) : Nat := rb.capacity

/-- Method `empty()`. -/
def emptyQ {α : Type} (rb : RingBuf α) : Bool := rb.size = 0

/-- Method `toArray()`: the elements in chronological order, read through `get`
(the source asserts each read is non-hole; holes are kept as `none` here). -/
def toArray {α : Type} (rb : RingBuf α) : List (Option α) :=
  (List.range rb.size).map rb.getN

/-- Method `first()`. -/
def first {α : Type} (rb : RingBuf α) : Option α :=
  if rb.size = 0 then none else (rb.buffer[rb.head]?).join

/-- Method `last()`. -/
def last {α : Type} (rb : RingBuf α) : Option α :=
  if rb.size = 0 then none
  else (rb.buffer[(rb.tail + rb.capacity - 1) % rb.capacity]?).join

/-- Push a whole list in order, discarding evictions (driver for specs). -/
def pushAll {α : Type} (rb : RingBuf α) (xs : List α) : RingBuf α :=
  xs.foldl (fun b x => (b.push x).2) rb

end RingBuf

/-- Stats ring buffer: ring buffer of numbers plus a running sum maintained on
each push (add the pushed value, subtract the evicted one when present). -/
structure StatsRingBuf where
  buf : RingBuf ℚ
  sum : ℚ
deriving DecidableEq, Repr

namespace StatsRingBuf

def new (capacity : Nat) : StatsRingBuf :=
  { buf := RingBuf.new ℚ capacity, sum := 0 }

def push (srb : StatsRingBuf) (item : ℚ) : Option ℚ × StatsRingBuf :=
  let r := srb.buf.push item
  let sum := srb.sum + item - (r.1.getD 0)
  (r.1, { buf := r.2, sum := sum })

def len (srb : StatsRingBuf) : Nat := srb.buf.len

def full (srb : StatsRingBuf) : Bool := srb.buf.full

/-- Method `avg()`: running sum over length, 0 when empty. -/
def avg (srb : StatsRingBuf) : ℚ :=
  if srb.len = 0 then 0 else srb.sum / (srb.len : ℚ)

end StatsRingBuf

/-!
## Stateful indicator entries (src/src/interpreter/functions.ts)

Each call site owns an opaque state record (a `Record<string, any>` handed
out by the VM, keyed by instruction id).  For MA and REF the record holds a
single buffer under the keys "maBuffer" / "refBuffer"; their one-site models
below thread that buffer directly, creating it on the first call exactly as
`useStatsRingBuf` / `useRingBuf` do.  For CROSS the record's string keys are
the essence of the behaviour, so its model keeps the full record.
-/

/-- One call of MA(x, n) at one call site: fetch or create the stats buffer of
capacity n, push x, return null while not full, else the running average. -/
def MAcall (n : Nat) (x : ℚ) (st : Option StatsRingBuf) : Option ℚ × StatsRingBuf :=
  let buffer := st.getD (StatsRingBuf.new n)
  let buffer := (buffer.push x).2
  (if buffer.full then some buffer.avg else none, buffer)

def MAcallsGo (n : Nat) (st : Option StatsRingBuf) : List ℚ → List (Option ℚ)
  | [] => []
  | x :: rest =>
    let r := MAcall n x st
    r.1 :: MAcallsGo n (some r.2) rest

/-- The per-bar results of one MA(·, n) call site fed the successive values
xs, starting from the fresh (empty) state the VM hands a new call site. -/
def MAcalls (n : Nat) (xs : List ℚ) : List (Option ℚ) := MAcallsGo n none xs

/-- One call of REF(x, n): read the element at index len − n (a possibly
negative JS index) before pushing, `?? null` the read, push x, and return the
read value once the window is full, null before. -/
def REFcall (n : Nat) (x : Option ℚ) (st : Option (RingBuf (Option ℚ))) :
    Option ℚ × RingBuf (Option ℚ) :=
  let buffer := st.getD (RingBuf.new (Option ℚ) n)
  let ret := (buffer.get ((buffer.len : Int) - (n : Int))).join
  let buffer := (buffer.push x).2
  (if buffer.full then ret else none, buffer)

def REFcallsGo (n : Nat) (st : Option (RingBuf (Option ℚ))) :
    List (Option ℚ) → List (Option ℚ)
  | [] => []
  | x :: rest =>
    let r := REFcall n x st
    r.1 :: REFcallsGo n (some r.2) rest

/-- The per-bar results of one REF(·, n) call site fed the successive
(nullable) values xs. -/
def REFcalls (n : Nat) (xs : List (Option ℚ)) : List (Option ℚ) := REFcallsGo n none xs

/-- One call of CROSS(a, b), transcribed from the source: null argument
returns null without touching the state; otherwise the difference s = a − b is
compared against the state key "prevCross", and the new difference is written
to the state key "s". -/
def CROSScall (a b : Option ℚ) (state : List (String × ℚ)) :
    Option ℚ × List (String × ℚ) :=
  match a, b with
  | some a, some b =>
    let s := a - b
    let prevS := lookupA state "prevCross"
    let ret : Option ℚ :=
      match prevS with
      | some p => if p < 0 ∧ 0 < s then some 1 else none
      | none => none
    (ret, setA state "s" s)
  | _, _ => (none, state)

def CROSScallsGo (state : List (String × ℚ)) :
    List (Option ℚ × Option ℚ) → List (Option ℚ)
  | [] => []
  | ab :: rest =>
    let r := CROSScall ab.1 ab.2 state
    r.1 :: CROSScallsGo r.2 rest

/-- The per-bar results of one CROSS call site fed the successive argument
pairs, starting from the fresh empty state record of a new call site. -/
def CROSScalls (inputs : List (Option ℚ × Option ℚ)) : List (Option ℚ) :=
  CROSScallsGo [] inputs

/-- CROSS as the specification describes it (what the source evidently
intended, and what the sibling revision in funcs/index.ts does): the stored
difference is read back from the same key it is written to. -/
def CROSScallSpec (a b : Option ℚ) (state : List (String × ℚ)) :
    Option ℚ × List (String × ℚ) :=
  match a, b with
  | some a, some b =>
    let s := a - b
    let prevS := lookupA state "prevCross"
    let ret : Option ℚ :=
      match prevS with
      | some p => if p < 0 ∧ 0 < s then some 1 else none
      | none => none
    (ret, setA state "prevCross" s)
  | _, _ => (none, state)

def CROSScallsSpecGo (state : List (String × ℚ)) :
    List (Option ℚ × Option ℚ) → List (Option ℚ)
  | [] => []
  | ab :: rest =>
    let r := CROSScallSpec ab.1 ab.2 state
    r.1 :: CROSScallsSpecGo r.2 rest

def CROSScallsSpec (inputs : List (Option ℚ × Option ℚ)) : List (Option ℚ) :=
  CROSScallsSpecGo [] inputs

/-!
## Characterization of a ring buffer fed a stream of pushes

`WindowInv k done rb` says: `rb` is what a fresh buffer of capacity `k`
becomes after pushing the elements of `done` in order.  It pins down the
size, head and tail pointers and every retained cell.
-/

def WindowInv {α : Type} (k : Nat) (done : List α) (rb : RingBuf α) : Prop :=
  rb.capacity = k ∧
  rb.buffer.length = k ∧
  rb.size = min done.length k ∧
  rb.tail = done.length % k ∧
  rb.head = (done.length - rb.size) % k ∧
  ∀ i : Nat, i < rb.size →
    rb.buffer[(rb.head + i) % k]? = some (done[done.length - rb.size + i]?)

theorem windowInv_new {α : Type} {k : Nat} : WindowInv k [] (RingBuf.new α k) := by
  refine ⟨rfl, by simp [RingBuf.new], by simp [RingBuf.new], by simp [RingBuf.new],
    by simp [RingBuf.new], ?_⟩
  intro i hi
  simp [RingBuf.new] at hi

theorem windowInv_push {α : Type} {k : Nat} (hk : 0 < k) {done : List α} {rb : RingBuf α}
    (h : WindowInv k done rb) (x : α) :
    WindowInv k (done ++ [x]) (rb.push x).2 ∧
    (rb.push x).1 = if k ≤ done.length then done[done.length - k]? else none := by
  obtain ⟨hcap, hlen, hsize, htail, hhead, hget⟩ := h
  by_cases hpk : done.length < k
  · -- buffer not yet full: size grows, head stays at 0
    have hsz : rb.size = done.length := by omega
    have hlt : rb.size < rb.capacity := by omega
    have hne : ¬ rb.size = rb.capacity := by omega
    have hpush : rb.push x =
        (none,
          { rb with
            buffer := rb.buffer.set rb.tail (some x)
            tail := (rb.tail + 1) % rb.capacity
            size := rb.size + 1 }) := by
      simp only [RingBuf.push, if_pos hlt, if_neg hne]
    have hhead0 : rb.head = 0 := by
      rw [hhead, hsz]
      simp
    refine ⟨⟨?_, ?_, ?_, ?_, ?_, ?_⟩, ?_⟩
    · rw [hpush]
      exact hcap
    · rw [hpush]
      simpa using hlen
    · rw [hpush]
      simp only [List.length_append, List.length_singleton]
      omega
    · rw [hpush, hcap, htail]
      simp only [List.length_append, List.length_singleton]
      rw [Nat.mod_add_mod]
    · rw [hpush]
      simp only [List.length_append, List.length_singleton]
      have : done.length + 1 - (rb.size + 1) = 0 := by omega
      rw [this, hhead0]
      simp
    · rw [hpush]
      intro i hi
      simp only at hi ⊢
      rw [hhead0] at hget ⊢
      have hik : i < k := by omega
      have hexp : done.length + 1 - (rb.size + 1) + i = i := by omega
      simp only [List.length_append, List.length_singleton, hexp, Nat.zero_add,
        Nat.mod_eq_of_lt hik]
      have htl : rb.tail = done.length := by
        rw [htail, Nat.mod_eq_of_lt hpk]
      by_cases hip : i = done.length
      · subst hip
        rw [htl, List.getElem?_set_eq_of_lt (some x) (by omega), List.getElem?_concat_length]
      · have hilt : i < done.length := by omega
        rw [htl, List.getElem?_set_ne (by omega),
          List.getElem?_append_left hilt]
        have hcell := hget i (by omega)
        rw [Nat.zero_add, Nat.mod_eq_of_lt hik] at hcell
        have hidx2 : done.length - rb.size + i = i := by omega
        rw [hidx2] at hcell
        rw [hcell]
    · rw [hpush]
      simp only
      rw [if_neg (by omega)]
  · -- buffer full: head advances, oldest element is evicted
    have hkp : k ≤ done.length := by omega
    have hsz : rb.size = k := by omega
    have heq : rb.size = rb.capacity := by omega
    have hnlt : ¬ rb.size < rb.capacity := by omega
    have hpush : rb.push x =
        ((rb.buffer[rb.head]?).join,
          { rb with
            buffer := rb.buffer.set rb.tail (some x)
            tail := (rb.tail + 1) % rb.capacity
            head := (rb.head + 1) % rb.capacity }) := by
      simp only [RingBuf.push, if_pos heq, if_neg hnlt]
    have hheadk : rb.head = (done.length - k) % k := by
      rw [hhead, hsz]
    have hheadlt : rb.head < k := by
      rw [hheadk]
      exact Nat.mod_lt _ hk
    have hevict : (rb.buffer[rb.head]?).join = done[done.length - k]? := by
      have h0 := hget 0 (by omega)
      rw [Nat.add_zero, Nat.mod_eq_of_lt hheadlt] at h0
      rw [h0, hsz, Nat.add_zero]
      simp [Option.join]
    have htl : rb.tail = done.length % k := htail
    refine ⟨⟨?_, ?_, ?_, ?_, ?_, ?_⟩, ?_⟩
    · rw [hpush]
      exact hcap
    · rw [hpush]
      simpa using hlen
    · rw [hpush]
      simp only [List.length_append, List.length_singleton]
      omega
    · rw [hpush, hcap, htail]
      simp only [List.length_append, List.length_singleton]
      rw [Nat.mod_add_mod]
    · rw [hpush, hcap, hheadk]
      simp only [List.length_append, List.length_singleton]
      rw [Nat.mod_add_mod]
      congr 1
      omega
    · rw [hpush]
      intro i hi
      simp only at hi ⊢
      have hik : i < k := by omega
      rw [hcap, hheadk, Nat.mod_add_mod]
      have hixeq : ((done.length - k) % k + 1 + i) % k = (done.length - k + 1 + i) % k := by
        conv_lhs => rw [Nat.add_assoc]
        rw [Nat.mod_add_mod, ← Nat.add_assoc]
      rw [hixeq]
      simp only [List.length_append, List.length_singleton]
      by_cases hlast : i = k - 1
      · -- the freshly written cell
        subst hlast
        have hidx : (done.length - k + 1 + (k - 1)) % k = done.length % k := by
          congr 1
          omega
        rw [hidx, ← htl, List.getElem?_set_eq_of_lt (some x) (by rw [htl, hlen]; exact Nat.mod_lt _ hk)]
        have : done.length + 1 - rb.size + (k - 1) = done.length := by omega
        rw [this, List.getElem?_concat_length]
      · -- an untouched cell: it held, and still holds, the (i+1)-st oldest value
        have hne2 : (done.length - k + 1 + i) % k ≠ rb.tail := by
          rw [htl]
          intro hcontra
          have hmodeq : done.length - k ≡ done.length - k + 1 + i [MOD k] := by
            have h1 : done.length % k = (done.length - k) % k :=
              Nat.mod_eq_sub_mod hkp
            unfold Nat.ModEq
            omega
          have hdvd : k ∣ done.length - k + 1 + i - (done.length - k) :=
            (Nat.modEq_iff_dvd' (by omega)).mp hmodeq
          have : done.length - k + 1 + i - (done.length - k) = 1 + i := by omega
          rw [this] at hdvd
          have := Nat.le_of_dvd (by omega) hdvd
          omega
        rw [List.getElem?_set_ne (Ne.symm hne2)]
        have hprev := hget (i + 1) (by omega)
        rw [hheadk, Nat.mod_add_mod] at hprev
        have hidx : done.length - k + 1 + i = done.length - k + (i + 1) := by omega
        rw [hidx, hprev, hsz]
        have : done.length + 1 - k + i = done.length - k + (i + 1) := by omega
        rw [this, List.getElem?_append_left (by omega)]
    · rw [hpush]
      simp only
      rw [if_pos hkp, hevict]

theorem windowInv_pushAll {α : Type} {k : Nat} (hk : 0 < k) :
    ∀ (xs done : List α) (rb : RingBuf α), WindowInv k done rb →
      WindowInv k (done ++ xs) (rb.pushAll xs)
  | [], done, rb, h => by simpa [RingBuf.pushAll] using h
  | x :: rest, done, rb, h => by
    have h1 := (windowInv_push hk h x).1
    have h2 := windowInv_pushAll hk rest (done ++ [x]) (rb.push x).2 h1
    simpa [RingBuf.pushAll, List.append_assoc] using h2

/-- The ring-buffer state reached from a fresh buffer after a whole sequence
of pushes. -/
theorem windowInv_pushAll_new {α : Type} {k : Nat} (hk : 0 < k) (xs : List α) :
    WindowInv k xs ((RingBuf.new α k).pushAll xs) := by
  simpa using windowInv_pushAll hk xs [] (RingBuf.new α k) windowInv_new

/-- Reading a retained element through `get`: index i addresses the i-th
oldest value, i.e. the value pushed (size − i) pushes before the end. -/
theorem windowInv_getN {α : Type} {k : Nat} {done : List α} {rb : RingBuf α}
    (h : WindowInv k done rb) {i : Nat} (hi : i < rb.size) :
    rb.getN i = done[done.length - rb.size + i]? := by
  obtain ⟨hcap, hlen, hsize, htail, hhead, hget⟩ := h
  unfold RingBuf.getN RingBuf.get
  rw [if_neg (by omega)]
  have htoNat : (i : Int).toNat = i := rfl
  rw [htoNat, hcap, hget i hi]
  simp [Option.join]

/-- Reading with a negative JS index yields undefined. -/
theorem RingBuf.get_neg {α : Type} (rb : RingBuf α) {index : Int} (h : index < 0) :
    rb.get index = none := by
  unfold RingBuf.get
  rw [if_pos (Or.inl h)]

/-- Running sum invariant of the stats ring buffer: after pushing `done` into
a fresh stats buffer of capacity k, the running sum is the sum of the
retained window (the last `size` elements of `done`). -/
def StatsInv (k : Nat) (done : List ℚ) (srb : StatsRingBuf) : Prop :=
  WindowInv k done srb.buf ∧ srb.sum = (done.drop (done.length - srb.buf.size)).sum

theorem statsInv_new {k : Nat} : StatsInv k [] (StatsRingBuf.new k) :=
  ⟨windowInv_new, by simp [StatsRingBuf.new, RingBuf.new]⟩

theorem statsInv_push {k : Nat} (hk : 0 < k) {done : List ℚ} {srb : StatsRingBuf}
    (h : StatsInv k done srb) (x : ℚ) : StatsInv k (done ++ [x]) (srb.push x).2 := by
  obtain ⟨hw, hsum⟩ := h
  have hp := windowInv_push hk hw x
  have hbuf : (srb.push x).2.buf = (srb.buf.push x).2 := rfl
  have hsum2 : (srb.push x).2.sum = srb.sum + x - ((srb.buf.push x).1.getD 0) := rfl
  refine ⟨by rw [hbuf]; exact hp.1, ?_⟩
  rw [hbuf, hsum2]
  have hszold : srb.buf.size = min done.length k := hw.2.2.1
  have hsznew : (srb.buf.push x).2.size = min (done.length + 1) k := by
    have := hp.1.2.2.1
    simpa using this
  by_cases hkp : k ≤ done.length
  · have hev : (srb.buf.push x).1 = done[done.length - k]? := by rw [hp.2, if_pos hkp]
    have hidx : done.length - k < done.length := by omega
    rw [List.getElem?_eq_getElem hidx] at hev
    rw [hev]
    have hdropold : done.drop (done.length - srb.buf.size) = done.drop (done.length - k) := by
      rw [hszold]
      congr 1
      omega
    rw [hdropold, List.drop_eq_getElem_cons hidx, List.sum_cons] at hsum
    have hdropnew : (done ++ [x]).drop ((done ++ [x]).length - (srb.buf.push x).2.size) =
        done.drop (done.length - k + 1) ++ [x] := by
      rw [hsznew]
      have h1 : (done ++ [x]).length - min (done.length + 1) k = done.length - k + 1 := by
        simp only [List.length_append, List.length_singleton]
        omega
      rw [h1, List.drop_append_of_le_length (by omega)]
    rw [hdropnew, List.sum_append, List.sum_singleton, hsum]
    simp
    ring
  · have hev : (srb.buf.push x).1 = none := by rw [hp.2, if_neg hkp]
    rw [hev]
    have h0 : done.length - srb.buf.size = 0 := by omega
    have h1 : (done ++ [x]).length - (srb.buf.push x).2.size = 0 := by
      rw [hsznew]
      simp only [List.length_append, List.length_singleton]
      omega
    rw [h0, List.drop_zero] at hsum
    rw [h1, List.drop_zero, List.sum_append, List.sum_singleton, hsum]
    simp

/-- Claim C7: for every ring buffer constructed with capacity k > 0 and every
finite sequence of pushes, len() = min(k, pushCount), full() holds iff
pushCount ≥ k, and for every i in [0, len()), toArray()[i] = get(i), which is
the i-th oldest retained element.
-/
theorem ringBuf_len_full_toArray_get {α : Type} (k : Nat) (xs : List α) (hk : 0 < k) :
    ((RingBuf.new α k).pushAll xs).len = min k xs.length ∧
    (((RingBuf.new α k).pushAll xs).full = true ↔ k ≤ xs.length) ∧
    ∀ i : Nat, i < ((RingBuf.new α k).pushAll xs).len →
      ((RingBuf.new α k).pushAll xs).toArray[i]? =
        some (((RingBuf.new α k).pushAll xs).getN i) ∧
      ((RingBuf.new α k).pushAll xs).getN i =
        xs[xs.length - ((RingBuf.new α k).pushAll xs).len + i]? := by
  have hw := windowInv_pushAll_new hk xs
  obtain ⟨hcap, hlen, hsize, htail, hhead, hget⟩ := hw
  refine ⟨?_, ?_, ?_⟩
  · rw [RingBuf.len, hsize, Nat.min_comm]
  · rw [RingBuf.full, hcap, hsize]
    simp only [decide_eq_true_eq]
    omega
  · intro i hi
    rw [RingBuf.len] at hi
    constructor
    · unfold RingBuf.toArray
      rw [List.getElem?_map, List.getElem?_range hi]
      rfl
    · rw [RingBuf.len]
      exact windowInv_getN ⟨hcap, hlen, hsize, htail, hhead, hget⟩ hi

/-- Witness for C7 at capacity 2 and pushes [a, b, c] over α = Bool. -/
theorem ringBuf_len_full_toArray_get_witness :
    0 < 2 ∧
    ((RingBuf.new Bool 2).pushAll [true, false, true]).len = min 2 3 ∧
    (((RingBuf.new Bool 2).pushAll [true, false, true]).full = true ↔ 2 ≤ 3) ∧
    ((RingBuf.new Bool 2).pushAll [true, false, true]).toArray[0]? =
      some (((RingBuf.new Bool 2).pushAll [true, false, true]).getN 0) ∧
    ((RingBuf.new Bool 2).pushAll [true, false, true]).getN 0 = some false := by
  have h := ringBuf_len_full_toArray_get 2 [true, false, true] (by decide)
  have h1 := (h.2.2 0 (by rw [h.1]; decide)).1
  have h2 := (h.2.2 0 (by rw [h.1]; decide)).2
  refine ⟨by decide, h.1, h.2.1, h1, ?_⟩
  rw [h2]
  decide

/-!
## Per-call-site behaviour of MA and REF
-/

/-- The call at position k of an MA(·, n) site: null while fewer than n values
have been seen, and the mean of the last n values afterwards, stated relative
to a prefix `done` of values already fed to the site. -/
theorem MAcallsGo_getElem (n : Nat) (hn : 0 < n) :
    ∀ (xs done : List ℚ) (st : Option StatsRingBuf),
      StatsInv n done (st.getD (StatsRingBuf.new n)) →
      ∀ k, k < xs.length →
        (MAcallsGo n st xs)[k]? = some (
          if done.length + k + 1 < n then none
          else some ((((done ++ xs).take (done.length + k + 1)).drop
              (done.length + k + 1 - n)).sum / (n : ℚ)))
  | [], done, st, _, k, hk => by simp at hk
  | x :: rest, done, st, h, k, hk => by
    have h1 : StatsInv n (done ++ [x]) (((st.getD (StatsRingBuf.new n)).push x)).2 :=
      statsInv_push hn h x
    have hsz : (((st.getD (StatsRingBuf.new n)).push x)).2.buf.size =
        min (done.length + 1) n := by
      have := h1.1.2.2.1
      simpa using this
    have hcapn : (((st.getD (StatsRingBuf.new n)).push x)).2.buf.capacity = n := h1.1.1
    match k with
    | 0 =>
      simp only [MAcallsGo, MAcall, List.getElem?_cons_zero]
      have htake : (done ++ x :: rest).take (done.length + 1) = done ++ [x] := by
        have hsplit : done ++ x :: rest = (done ++ [x]) ++ rest := by simp
        rw [hsplit]
        have hlen1 : done.length + 1 = (done ++ [x]).length := by simp
        rw [hlen1, List.take_left]
      by_cases hfull : n ≤ done.length + 1
      · have hf : (((st.getD (StatsRingBuf.new n)).push x)).2.full = true := by
          rw [StatsRingBuf.full, RingBuf.full, hsz, hcapn]
          simp only [decide_eq_true_eq]
          omega
        rw [hf, if_pos rfl, if_neg (by omega)]
        have hlenn : (((st.getD (StatsRingBuf.new n)).push x)).2.len = n := by
          rw [StatsRingBuf.len, RingBuf.len, hsz]
          omega
        have havg : (((st.getD (StatsRingBuf.new n)).push x)).2.avg =
            (((st.getD (StatsRingBuf.new n)).push x)).2.sum / (n : ℚ) := by
          rw [StatsRingBuf.avg, hlenn, if_neg (by omega)]
        rw [havg, h1.2]
        have hdrop : (done ++ [x]).length - (((st.getD (StatsRingBuf.new n)).push x)).2.buf.size
            = done.length + 0 + 1 - n := by
          rw [hsz]
          simp only [List.length_append, List.length_singleton]
          omega
        rw [hdrop]
        have htake2 : done.length + 0 + 1 = done.length + 1 := by omega
        rw [htake2, htake]
      · have hf : (((st.getD (StatsRingBuf.new n)).push x)).2.full = false := by
          rw [StatsRingBuf.full, RingBuf.full, hsz, hcapn]
          simp only [decide_eq_false_iff_not]
          omega
        rw [hf]
        rw [if_neg (by simp), if_pos (by omega)]
    | k + 1 =>
      simp only [MAcallsGo, List.getElem?_cons_succ]
      have hstep : (MAcall n x st).2 = (((st.getD (StatsRingBuf.new n)).push x)).2 := rfl
      have hIH := MAcallsGo_getElem n hn rest (done ++ [x]) (some (MAcall n x st).2)
        (by rw [Option.getD_some, hstep]; exact h1) k (by simpa using hk)
      have harith : done.length + (k + 1) + 1 = (done ++ [x]).length + k + 1 := by
        simp only [List.length_append, List.length_singleton]
        omega
      have hlist : done ++ x :: rest = (done ++ [x]) ++ rest := by simp
      rw [harith, hlist]
      exact hIH

/-- Claim C5: a call site of MA(x, n) with n > 0 returns null on the first n − 1
calls and from the n-th call on returns the arithmetic mean of the last n
values of x.
-/
theorem MA_per_site (n : Nat) (xs : List ℚ) (k : Nat) (hn : 0 < n) (hk : k < xs.length) :
    (MAcalls n xs)[k]? = some (if k + 1 < n then none
      else some (((xs.take (k + 1)).drop (k + 1 - n)).sum / (n : ℚ))) := by
  have h := MAcallsGo_getElem n hn xs [] none statsInv_new k hk
  simpa using h

/-- Witness for C5: the n = 3 example of the claim, with C = 102,106,107,109,113;
the fifth call returns (107+109+113)/3 = 109.666…, and the second returns null. -/
theorem MA_per_site_witness :
    (0 < 3 ∧ 4 < 5 ∧ (MAcalls 3 [102, 106, 107, 109, 113])[4]? = some (some (329/3))) ∧
    (MAcalls 3 [102, 106, 107, 109, 113])[1]? = some none := by
  constructor
  · refine ⟨by decide, by decide, ?_⟩
    have h := MA_per_site 3 [102, 106, 107, 109, 113] 4 (by decide) (by decide)
    rw [h]
    norm_num
  · have h := MA_per_site 3 [102, 106, 107, 109, 113] 1 (by decide) (by decide)
    rw [h]
    norm_num

/-- The call at position k of a REF(·, n) site, relative to a prefix `done`
of values already fed to the site. -/
theorem REFcallsGo_getElem (n : Nat) (hn : 0 < n) :
    ∀ (xs done : List (Option ℚ)) (st : Option (RingBuf (Option ℚ))),
      WindowInv n done (st.getD (RingBuf.new (Option ℚ) n)) →
      ∀ k, k < xs.length →
        (REFcallsGo n st xs)[k]? = some (
          if done.length + k < n then none
          else ((done ++ xs)[done.length + k - n]?).join)
  | [], done, st, _, k, hk => by simp at hk
  | x :: rest, done, st, h, k, hk => by
    have h1 : WindowInv n (done ++ [x]) (((st.getD (RingBuf.new (Option ℚ) n)).push x)).2 :=
      (windowInv_push hn h x).1
    have hsz0 : (st.getD (RingBuf.new (Option ℚ) n)).size = min done.length n := h.2.2.1
    have hsz : (((st.getD (RingBuf.new (Option ℚ) n)).push x)).2.size =
        min (done.length + 1) n := by
      have := h1.2.2.1
      simpa using this
    have hcapn : (((st.getD (RingBuf.new (Option ℚ) n)).push x)).2.capacity = n := h1.1
    match k with
    | 0 =>
      simp only [REFcallsGo, REFcall, List.getElem?_cons_zero]
      by_cases hB : n ≤ done.length
      · -- the window was already full before this push
        have hf : (((st.getD (RingBuf.new (Option ℚ) n)).push x)).2.full = true := by
          rw [RingBuf.full, hsz, hcapn]
          simp only [decide_eq_true_eq]
          omega
        have hlen0 : ((st.getD (RingBuf.new (Option ℚ) n)).len : Int) - (n : Int) =
            (((0 : Nat) : Int)) := by
          rw [RingBuf.len, hsz0]
          omega
        have hret : (st.getD (RingBuf.new (Option ℚ) n)).get
            (((st.getD (RingBuf.new (Option ℚ) n)).len : Int) - (n : Int)) =
            done[done.length - n]? := by
          rw [hlen0]
          have hg := windowInv_getN h (show 0 < (st.getD (RingBuf.new (Option ℚ) n)).size by omega)
          rw [RingBuf.getN] at hg
          rw [hg, hsz0]
          congr 1
          omega
        rw [hf, if_pos rfl, hret, if_neg (by omega)]
        have hgetl : (done ++ x :: rest)[done.length + 0 - n]? = done[done.length - n]? := by
          have : done.length + 0 - n = done.length - n := by omega
          rw [this, List.getElem?_append_left (by omega)]
        rw [hgetl]
      · -- fewer than n values seen before this push
        by_cases hA : n ≤ done.length + 1
        · -- the push just filled the window; the pre-push read was out of range
          have hf : (((st.getD (RingBuf.new (Option ℚ) n)).push x)).2.full = true := by
            rw [RingBuf.full, hsz, hcapn]
            simp only [decide_eq_true_eq]
            omega
          have hneg : ((st.getD (RingBuf.new (Option ℚ) n)).len : Int) - (n : Int) < 0 := by
            rw [RingBuf.len, hsz0]
            omega
          rw [hf, if_pos rfl, RingBuf.get_neg _ hneg, if_pos (by omega)]
          rfl
        · have hf : (((st.getD (RingBuf.new (Option ℚ) n)).push x)).2.full = false := by
            rw [RingBuf.full, hsz, hcapn]
            simp only [decide_eq_false_iff_not]
            omega
          rw [hf, if_neg (by simp), if_pos (by omega)]
    | k + 1 =>
      simp only [REFcallsGo, List.getElem?_cons_succ]
      have hstep : (REFcall n x st).2 = (((st.getD (RingBuf.new (Option ℚ) n)).push x)).2 := rfl
      have hIH := REFcallsGo_getElem n hn rest (done ++ [x]) (some (REFcall n x st).2)
        (by rw [Option.getD_some, hstep]; exact h1) k (by simpa using hk)
      have harith : done.length + (k + 1) = (done ++ [x]).length + k := by
        simp only [List.length_append, List.length_singleton]
        omega
      have hlist : done ++ x :: rest = (done ++ [x]) ++ rest := by simp
      rw [harith, hlist]
      exact hIH

/-- Claim C6: a call site of REF(x, n) with n > 0 returns null on the first n
calls; every later call returns the value passed n calls earlier — the element
at index len − n of the site's ring buffer, read before the current x is
pushed.
-/
theorem REF_per_site (n : Nat) (xs : List (Option ℚ)) (k : Nat) (hn : 0 < n)
    (hk : k < xs.length) :
    (REFcalls n xs)[k]? = some (if k < n then none else (xs[k - n]?).join) := by
  have h := REFcallsGo_getElem n hn xs [] none windowInv_new k hk
  simpa using h

/-- Witness for C6: the spec scenario REF(C, 1) on C = 10, 20, 30; the second
call returns 10 and the first returns null. -/
theorem REF_per_site_witness :
    (0 < 1 ∧ 1 < 3 ∧ (REFcalls 1 [some 10, some 20, some 30])[1]? = some (some 10)) ∧
    (REFcalls 1 [some 10, some 20, some 30])[0]? = some none := by
  constructor
  · refine ⟨by decide, by decide, ?_⟩
    have h := REF_per_site 1 [some 10, some 20, some 30] 1 (by decide) (by decide)
    rw [h]
    rfl
  · have h := REF_per_site 1 [some 10, some 20, some 30] 0 (by decide) (by decide)
    rw [h]
    rfl

/-!
## CROSS: the stored difference is written to state key "s" but read back
from state key "prevCross", so the previous difference is never seen.
-/

theorem lookupA_setA_ne {α : Type} (l : List (String × α)) (k k' : String) (v : α)
    (h : k ≠ k') : lookupA (setA l k v) k' = lookupA l k' := by
  induction l with
  | nil => simp [setA, lookupA, h]
  | cons hd tl ih =>
    obtain ⟨k2, v2⟩ := hd
    by_cases h2 : k2 = k
    · subst h2
      simp [setA, lookupA, h]
    · simp [setA, lookupA, h2, ih]

/-- Along any run of a CROSS call site that starts (as in the VM) with a state
record not containing "prevCross", every call leaves "prevCross" unset and
therefore returns null. -/
theorem CROSScallsGo_all_none :
    ∀ (inputs : List (Option ℚ × Option ℚ)) (st : List (String × ℚ)),
      lookupA st "prevCross" = none →
      (CROSScallsGo st inputs).all (fun r => r == none) = true
  | [], _, _ => rfl
  | ab :: rest, st, h => by
    obtain ⟨a, b⟩ := ab
    match a, b with
    | some a, some b =>
      simp only [CROSScallsGo, CROSScall, h, List.all_cons, Bool.and_eq_true]
      exact ⟨rfl, CROSScallsGo_all_none rest _
        (by rw [lookupA_setA_ne _ _ _ _ (by decide)]; exact h)⟩
    | none, b =>
      simp only [CROSScallsGo, CROSScall, List.all_cons, Bool.and_eq_true]
      exact ⟨rfl, CROSScallsGo_all_none rest st h⟩
    | some a, none =>
      simp only [CROSScallsGo, CROSScall, List.all_cons, Bool.and_eq_true]
      exact ⟨rfl, CROSScallsGo_all_none rest st h⟩

/-- Claim C3 (code bug): as implemented, a CROSS call site never returns 1 — the
golden-cross comparison reads state key "prevCross", which no call ever
writes (calls write the difference to key "s").  In particular the claimed
golden-cross input (a−b previously −1, now +1) returns null instead of 1,
while the key-corrected version of the same code returns 1 there.
-/
theorem CROSS_never_returns_one :
    (∀ inputs : List (Option ℚ × Option ℚ),
      (CROSScalls inputs).all (fun r => r == none) = true) ∧
    CROSScalls [(some 1, some 2), (some 3, some 2)] = [none, none] ∧
    CROSScallsSpec [(some 1, some 2), (some 3, some 2)] = [none, some 1] := by
  refine ⟨fun inputs => CROSScallsGo_all_none inputs [] rfl, ?_, ?_⟩
  · norm_num [CROSScalls, CROSScallsGo, CROSScall, lookupA, setA]
    simp
  · norm_num [CROSScallsSpec, CROSScallsSpecGo, CROSScallSpec, lookupA, setA]

/-!
## Parsed tree (src/src/ast/types.ts), IR model (src/src/ir/types.ts)
-/

inductive BinOp where
  | plus | minus | multiply | divide
  | gt | lt | gte | lte | eq | neq
  | logicalAnd | logicalOr
deriving DecidableEq, Repr

inductive UnOp where
  | plus | minus
deriving DecidableEq, Repr

inductive AssignOp where
  | assign | displayAssign | powerAssign | rangeOp
deriving DecidableEq, Repr

inductive Expr where
  | numLit (q : ℚ)
  | strLit (s : String)
  | boolLit (b : Bool)
  | ident (name : String)
  | binary (op : BinOp) (left right : Expr)
  | unary (op : UnOp) (argument : Expr)
  | assign (op : AssignOp) (left right : Expr)
  | call (callee : Expr) (args : List Expr)
  | member (obj : Expr) (prop : String)
deriving Repr

inductive Stmt where
  | exprStmt (e : Expr)
  | varDecl (vars : List (String × Option Expr))
  | ifStmt (test : Expr) (consequent : Stmt) (alternate : Option Stmt)
  | block (body : List Stmt)
  | ret (argument : Option Expr)
deriving Repr

/-- The tagged error kinds of MaiError plus two embedding-level kinds:
`internalError` for the plain JS Error of the compiler's depth check, and
`fuelExhausted` for the bounded dispatch loop of the model (the compiler only
emits forward jumps, so real executions never reach it). -/
inductive Err where
  | runtimeError | typeError | divisionByZero | invalidOperator | invalidAssignment
  | invalidFunctionCall | undefinedVariable | unimplementedFeature
  | internalError
  | fuelExhausted
deriving DecidableEq, Repr

/-- The opcode together with its resolved operand.  `LOAD_CONST none` is the
uninterned `undefined` operand emitted for a bare RETURN (the source interns
an operand into the constants vector only when it is not undefined). -/
inductive IROp where
  | LOAD_CONST (c : Option Nat)
  | LOAD_VAR (i : Nat)
  | LOAD_GLOBAL (i : Nat)
  | INIT_GLOBAL (i : Nat)
  | STORE_VAR (i : Nat)
  | STORE_GLOBAL (i : Nat)
  | STORE_OUTPUT (i : Nat)
  | ADD | SUB | MUL | DIV
  | UNARY_PLUS | UNARY_MINUS
  | GT | LT | GTE | LTE | EQ | NEQ
  | AND | OR
  | JUMP (label : String)
  | JUMP_IF_FALSE (label : String)
  | JUMP_IF_TRUE (label : String)
  | CALL_BUILTIN (name : String) (argCount : Nat)
  | CALL_FUNC (argCount : Nat)
  | POP | DUP | SWAP
  | RETURN | NOP
deriving DecidableEq, Repr

/-- One IR instruction: stable id (its emission index), opcode with operand,
and the `extra.operandName` debug field, which STORE_OUTPUT reads at runtime
as the output key.  Source locations are not modelled. -/
structure Instr where
  id : Nat
  opcode : IROp
  operandName : Option String
deriving DecidableEq, Repr

structure IRFunction where
  name : String
  instructions : List Instr
  localsCount : Nat
  globalsCount : Nat
  maxStackDepth : Int
deriving DecidableEq, Repr

/-- Compiled program: main function, interned constants, label table,
global-name lookup and the reverse name maps used for result reporting.
(The source also stores a `functions` list that always equals `[main]`.) -/
structure IRProgram where
  main : IRFunction
  constants : List Value
  labels : List (String × Nat)
  gLookup : List (String × Nat)
  localNames : List (Option String)
  globalNames : List (Option String)
deriving DecidableEq, Repr

/-!
## IR compiler (src/src/executor/core.ts, class IRGenerator)
-/

def protectedWords : List String :=
  ["O", "H", "L", "C", "VARIABLE", "IF", "THEN", "ELSE", "BEGIN", "END", "RETURN"]

def defaultGlobals : List String := ["O", "H", "L", "C"]

structure GenCtx where
  instructions : List Instr
  constants : List Value
  varLookup : List (String × Nat)
  gVarLookup : List (String × Nat)
  labels : List (String × Nat)
  labelCounter : Nat
  maxStackDepth : Int
  curStackDepth : Int
deriving DecidableEq, Repr

def GenCtx.initial : GenCtx :=
  { instructions := [], constants := [], varLookup := [], gVarLookup := [],
    labels := [], labelCounter := 0, maxStackDepth := 0, curStackDepth := 0 }

/-- Per-opcode stack effect table (push, pop); the source's default arm
(NOP) is (0, 0). -/
def getStackEffect : IROp → Nat × Nat
  | .LOAD_CONST _ => (1, 0)
  | .LOAD_VAR _ => (1, 0)
  | .LOAD_GLOBAL _ => (1, 0)
  | .INIT_GLOBAL _ => (0, 1)
  | .STORE_VAR _ => (0, 1)
  | .STORE_GLOBAL _ => (0, 1)
  | .STORE_OUTPUT _ => (0, 1)
  | .ADD => (1, 2)
  | .SUB => (1, 2)
  | .MUL => (1, 2)
  | .DIV => (1, 2)
  | .GT => (1, 2)
  | .LT => (1, 2)
  | .GTE => (1, 2)
  | .LTE => (1, 2)
  | .EQ => (1, 2)
  | .NEQ => (1, 2)
  | .AND => (1, 2)
  | .OR => (1, 2)
  | .UNARY_PLUS => (1, 1)
  | .UNARY_MINUS => (1, 1)
  | .POP => (0, 1)
  | .DUP => (2, 1)
  | .SWAP => (2, 2)
  | .CALL_BUILTIN _ argCount => (1, argCount)
  | .CALL_FUNC argCount => (1, argCount + 1)
  | .RETURN => (0, 1)
  | .JUMP _ => (0, 0)
  | .JUMP_IF_FALSE _ => (0, 1)
  | .JUMP_IF_TRUE _ => (0, 1)
  | .NOP => (0, 0)

/-- Update current/maximum stack depth for an emitted opcode; a negative
depth is the compiler-bug guard (plain JS Error in the source). -/
def updateStackDepth (ctx : GenCtx) (op : IROp) : Except Err GenCtx :=
  let eff := getStackEffect op
  let cur := ctx.curStackDepth - (eff.2 : Int) + (eff.1 : Int)
  let maxDepth := if ctx.maxStackDepth < cur then cur else ctx.maxStackDepth
  if cur < 0 then .error .internalError
  else .ok { ctx with curStackDepth := cur, maxStackDepth := maxDepth }

/-- Append an instruction (id = current instruction count) and track depth. -/
def emitOp (ctx : GenCtx) (op : IROp) (operandName : Option String) : Except Err GenCtx :=
  let instr : Instr := { id := ctx.instructions.length, opcode := op, operandName }
  updateStackDepth { ctx with instructions := ctx.instructions ++ [instr] } op

/-- Emission `emit(LOAD_CONST, v)` with a defined operand: intern v by appending to the
constants vector and emit the index. -/
def emitConst (ctx : GenCtx) (v : Value) : Except Err GenCtx :=
  let idx := ctx.constants.length
  emitOp { ctx with constants := ctx.constants ++ [v] } (.LOAD_CONST (some idx)) none

/-- Emission `emit(LOAD_CONST, undefined)`: the operand stays undefined, nothing is
interned. -/
def emitConstUndefined (ctx : GenCtx) : Except Err GenCtx :=
  emitOp ctx (.LOAD_CONST none) none

def getOrAddLocal (ctx : GenCtx) (name : String) : Nat × GenCtx :=
  match lookupA ctx.varLookup name with
  | some i => (i, ctx)
  | none =>
    let i := ctx.varLookup.length
    (i, { ctx with varLookup := ctx.varLookup ++ [(name, i)] })

def getOrAddGlobal (ctx : GenCtx) (name : String) : Nat × GenCtx :=
  match lookupA ctx.gVarLookup name with
  | some i => (i, ctx)
  | none =>
    let i := ctx.gVarLookup.length
    (i, { ctx with gVarLookup := ctx.gVarLookup ++ [(name, i)] })

def createLabel (ctx : GenCtx) : String × GenCtx :=
  ("L" ++ toString ctx.labelCounter, { ctx with labelCounter := ctx.labelCounter + 1 })

/-- Record the label at the current instruction index, then emit the NOP
landing pad. -/
def placeLabel (ctx : GenCtx) (label : String) : Except Err GenCtx :=
  emitOp { ctx with labels := ctx.labels ++ [(label, ctx.instructions.length)] } .NOP none

def binOpCode : BinOp → IROp
  | .plus => .ADD
  | .minus => .SUB
  | .multiply => .MUL
  | .divide => .DIV
  | .gt => .GT
  | .lt => .LT
  | .gte => .GTE
  | .lte => .LTE
  | .eq => .EQ
  | .neq => .NEQ
  | .logicalAnd => .AND
  | .logicalOr => .OR

/-- Identifier load: local map first, then global map, else UndefinedVariable. -/
def generateIdentifier (ctx : GenCtx) (name : String) : Except Err GenCtx :=
  match lookupA ctx.varLookup name with
  | some varIndex => emitOp ctx (.LOAD_VAR varIndex) (some name)
  | none =>
    match lookupA ctx.gVarLookup name with
    | some varIndex => emitOp ctx (.LOAD_GLOBAL varIndex) (some name)
    | none => .error .undefinedVariable

mutual

/-- Expression lowering.  The source's generateAssignmentExpression method is
inlined at the `.assign` arms: a non-identifier LHS and a protected word fail
with InvalidAssignment before the RHS is compiled; `:=` stores to the global
slot when the name has one, else to a (possibly fresh) local slot; `:`
additionally DUPs first and emits STORE_OUTPUT whose operand index is a
(possibly fresh) local slot for the name; `^^` and `..` are unimplemented. -/
def generateExpression (ctx : GenCtx) : Expr → Except Err GenCtx
  | .numLit q => emitConst ctx (.num q)
  | .strLit s => emitConst ctx (.str s)
  | .boolLit b => emitConst ctx (.bool b)
  | .ident name => generateIdentifier ctx name
  | .binary op left right => do
    let ctx ← generateExpression ctx left
    let ctx ← generateExpression ctx right
    emitOp ctx (binOpCode op) none
  | .assign op (.ident varName) right =>
    if varName ∈ protectedWords then .error .invalidAssignment
    else do
      let ctx ← generateExpression ctx right
      match op with
      | .assign =>
        (match lookupA ctx.gVarLookup varName with
        | some varIndex => emitOp ctx (.STORE_GLOBAL varIndex) (some varName)
        | none =>
          let r := getOrAddLocal ctx varName
          emitOp r.2 (.STORE_VAR r.1) (some varName))
      | .displayAssign => do
        let ctx ← emitOp ctx .DUP none
        let ctx ←
          match lookupA ctx.gVarLookup varName with
          | some varIndex => emitOp ctx (.STORE_GLOBAL varIndex) (some varName)
          | none =>
            let r := getOrAddLocal ctx varName
            emitOp r.2 (.STORE_VAR r.1) (some varName)
        let r := getOrAddLocal ctx varName
        emitOp r.2 (.STORE_OUTPUT r.1) (some varName)
      | _ => .error .unimplementedFeature
  | .assign _ _ _ => .error .invalidAssignment
  | .unary op argument => do
    let ctx ← generateExpression ctx argument
    match op with
    | .plus => emitOp ctx .UNARY_PLUS none
    | .minus => emitOp ctx .UNARY_MINUS none
  | .call (.ident funcName) args => do
    let ctx ← generateExpressions ctx args
    emitOp ctx (.CALL_BUILTIN funcName args.length) none
  | .call callee args => do
    let ctx ← generateExpression ctx callee
    let ctx ← generateExpressions ctx args
    emitOp ctx (.CALL_FUNC args.length) none
  | .member _ _ => .error .runtimeError

def generateExpressions (ctx : GenCtx) : List Expr → Except Err GenCtx
  | [] => .ok ctx
  | e :: rest => do
    let ctx ← generateExpression ctx e
    generateExpressions ctx rest

end

/-- The source's generateAssignmentExpression, as the corresponding arm of
generateExpression. -/
def generateAssignmentExpression (ctx : GenCtx) (op : AssignOp) (left right : Expr) :
    Except Err GenCtx :=
  generateExpression ctx (.assign op left right)

/-- Declaration lowering `VARIABLE: x := e, y, …` — allocate (or reuse) a global slot per entry,
compile the initializer (null when absent) and emit INIT_GLOBAL.  No
protected-word check happens here. -/
def generateVarDeclEntries (ctx : GenCtx) : List (String × Option Expr) → Except Err GenCtx
  | [] => .ok ctx
  | (varName, initE) :: rest => do
    let r := getOrAddGlobal ctx varName
    let ctx ←
      match initE with
      | some e => generateExpression r.2 e
      | none => emitConst r.2 .null
    let ctx ← emitOp ctx (.INIT_GLOBAL r.1) (some varName)
    generateVarDeclEntries ctx rest

mutual

def generateStatement (ctx : GenCtx) : Stmt → Bool → Except Err GenCtx
  | .exprStmt e, isLastStatement => do
    let ctx ← generateExpression ctx e
    -- pop the unused result, unless last statement or the depth is 0
    if !isLastStatement && ctx.curStackDepth > 0 then emitOp ctx .POP none else .ok ctx
  | .varDecl vars, _ => generateVarDeclEntries ctx vars
  | .ifStmt test consequent alternate, _ => do
    let ctx ← generateExpression ctx test
    let r1 := createLabel ctx
    let r2 := createLabel r1.2
    let ctx ← emitOp r2.2 (.JUMP_IF_FALSE r1.1) none
    let ctx ← generateStatement ctx consequent false
    let ctx ← emitOp ctx (.JUMP r2.1) none
    let ctx ← placeLabel ctx r1.1
    let ctx ←
      match alternate with
      | some alt => generateStatement ctx alt false
      | none => .ok ctx
    placeLabel ctx r2.1
  | .block body, _ => generateStatements ctx body
  | .ret argument, _ => do
    let ctx ←
      match argument with
      | some e => generateExpression ctx e
      | none => emitConstUndefined ctx
    emitOp ctx .RETURN none

def generateStatements (ctx : GenCtx) : List Stmt → Except Err GenCtx
  | [] => .ok ctx
  | s :: rest => do
    let ctx ← generateStatement ctx s false
    generateStatements ctx rest

end

def compileProgramGo (ctx : GenCtx) : List Stmt → Except Err GenCtx
  | [] => .ok ctx
  | [s] => generateStatement ctx s true
  | s :: s2 :: rest => do
    let ctx ← generateStatement ctx s false
    compileProgramGo ctx (s2 :: rest)

def createReverseMapping (nameToIndex : List (String × Nat)) : List (Option String) :=
  if nameToIndex.isEmpty then []
  else
    let maxIndex := (nameToIndex.map (fun p => p.2)).foldl max 0
    nameToIndex.foldl (fun arr p => arr.set p.2 (some p.1))
      (List.replicate (maxIndex + 1) (none : Option String))

def seedGlobals (ctx : GenCtx) : List String → GenCtx
  | [] => ctx
  | g :: rest => seedGlobals (getOrAddGlobal ctx g).2 rest

namespace IRGen

/-- Entry point `IRGenerator.gen`: pre-seed the default globals O H L C (then any
embedder-declared extras), walk the statements, and assemble the program.
The optimize/debug options only control unmodelled debug locations. -/
def gen (program : List Stmt) (extraGlobals : List String) : Except Err IRProgram := do
  let ctx := seedGlobals GenCtx.initial (defaultGlobals ++ extraGlobals)
  let ctx ← compileProgramGo ctx program
  .ok { main := { name := "main", instructions := ctx.instructions,
                  localsCount := ctx.varLookup.length,
                  globalsCount := ctx.gVarLookup.length,
                  maxStackDepth := ctx.maxStackDepth },
        constants := ctx.constants,
        labels := ctx.labels,
        gLookup := ctx.gVarLookup,
        localNames := createReverseMapping ctx.varLookup,
        globalNames := createReverseMapping ctx.gVarLookup }

end IRGen

/-!
## Stack VM (src/unnamed/part_009, class Interpreter)
-/

/-- A value stored in a call site's state record: a stats ring buffer
("maBuffer"), a plain ring buffer of nullable numbers ("refBuffer"), or a
scalar number (CROSS's difference). -/
inductive StateVal where
  | srb (b : StatsRingBuf)
  | rb (b : RingBuf (Option ℚ))
  | num (q : ℚ)
deriving DecidableEq, Repr

/-- The per-call-site `Record<string, any>` handed out by the VM. -/
abbrev FuncState := List (String × StateVal)

/-- JS `Boolean(value)`: false, 0, null, undefined and the empty string are
falsy. -/
def isTruthy : Value → Bool
  | .num q => q != 0
  | .bool b => b
  | .str s => s != ""
  | .null => false
  | .undef => false

def checkNumber : Value → Except Err ℚ
  | .num q => .ok q
  | _ => .error .typeError

def valOfNullable : Option ℚ → Value
  | some q => .num q
  | none => .null

/-- typia assert for a `Nullable<number>` argument slot. -/
def asNullableNum : Value → Except Err (Option ℚ)
  | .num q => .ok (some q)
  | .null => .ok none
  | _ => .error .typeError

/-- typia assert for a `number` argument slot. -/
def asNum : Value → Except Err ℚ
  | .num q => .ok q
  | _ => .error .typeError

/-- A window-size argument.  The claims and every specified use pass a
positive integral n; a fractional or negative period (which in JS would build
a buffer that can never fill, or throw in the constructor) is surfaced as a
runtime error here. -/
def asWindow (q : ℚ) : Except Err Nat :=
  if q.den = 1 ∧ 0 < q.num then .ok q.num.toNat else .error .runtimeError

/-- MA / SMA registry entry at the Value level: state key "maBuffer". -/
def MAexec (args : List Value) (st : FuncState) : Except Err (Value × FuncState) :=
  match args with
  | [xv, pv] => do
    let x ← asNum xv
    let p ← asNum pv
    let n ← asWindow p
    let buffer ←
      match lookupA st "maBuffer" with
      | some (.srb b) => .ok b
      | some _ => .error .runtimeError
      | none => .ok (StatsRingBuf.new n)
    let buffer := (buffer.push x).2
    .ok (if buffer.full then .num buffer.avg else .null, setA st "maBuffer" (.srb buffer))
  | _ => .error .typeError

/-- REF registry entry at the Value level: state key "refBuffer". -/
def REFexec (args : List Value) (st : FuncState) : Except Err (Value × FuncState) :=
  match args with
  | [xv, pv] => do
    let x ← asNullableNum xv
    let p ← asNum pv
    let n ← asWindow p
    let buffer ←
      match lookupA st "refBuffer" with
      | some (.rb b) => .ok b
      | some _ => .error .runtimeError
      | none => .ok (RingBuf.new (Option ℚ) n)
    let ret := (buffer.get ((buffer.len : Int) - (n : Int))).join
    let buffer := (buffer.push x).2
    .ok (if buffer.full then valOfNullable ret else .null, setA st "refBuffer" (.rb buffer))
  | _ => .error .typeError

/-- CROSS registry entry: reads "prevCross", writes "s" (the source's key
mismatch, kept verbatim). -/
def CROSSexec (args : List Value) (st : FuncState) : Except Err (Value × FuncState) :=
  match args with
  | [av, bv] => do
    let a ← asNullableNum av
    let b ← asNullableNum bv
    match a, b with
    | some a, some b =>
      let s := a - b
      let ret : Option ℚ :=
        match lookupA st "prevCross" with
        | some (.num p) => if p < 0 ∧ 0 < s then some 1 else none
        | _ => none
      .ok (valOfNullable ret, setA st "s" (.num s))
    | _, _ => .ok (.null, st)
  | _ => .error .typeError

/-- CROSSDOWN: same structure with the sign reversed. -/
def CROSSDOWNexec (args : List Value) (st : FuncState) : Except Err (Value × FuncState) :=
  match args with
  | [av, bv] => do
    let a ← asNullableNum av
    let b ← asNullableNum bv
    match a, b with
    | some a, some b =>
      let s := a - b
      let ret : Option ℚ :=
        match lookupA st "prevCross" with
        | some (.num p) => if 0 < p ∧ s < 0 then some 1 else none
        | _ => none
      .ok (valOfNullable ret, setA st "s" (.num s))
    | _, _ => .ok (.null, st)
  | _ => .error .typeError

/-- IFELSE / IFF: stateless ternary on JS truthiness. -/
def IFELSEexec (args : List Value) (st : FuncState) : Except Err (Value × FuncState) :=
  match args with
  | [cond, trueVal, falseVal] =>
    .ok (if isTruthy cond then trueVal else falseVal, st)
  | _ => .error .typeError

/-- The stateful entries of functions.ts relevant to the claims, under their
names and aliases.  (The remaining entries — PRINT, MAX, MIN, SUM — are
stateless wrappers over the log sink and JS Math and are not modelled; no
claim or modelled program calls them.) -/
def funcRegistry (name : String) :
    Option (List Value → FuncState → Except Err (Value × FuncState)) :=
  if name = "MA" ∨ name = "SMA" then some MAexec
  else if name = "CROSS" then some CROSSexec
  else if name = "CROSSDOWN" then some CROSSDOWNexec
  else if name = "REF" then some REFexec
  else if name = "IFELSE" ∨ name = "IFF" then some IFELSEexec
  else none

/-- Market-data alias table of the VM. -/
def marketDataAlias (k : String) : Option String :=
  if k = "O" then some "OPEN"
  else if k = "H" then some "HIGH"
  else if k = "L" then some "LOW"
  else if k = "C" then some "CLOSE"
  else if k = "V" then some "VOL"
  else none

/-- One OHLC(+T) bar. -/
structure Bar where
  t : ℚ
  o : ℚ
  h : ℚ
  l : ℚ
  c : ℚ
deriving DecidableEq, Repr

/-- Iteration order of `Object.entries(marketData)`: the interface's field order. -/
def Bar.entries (bar : Bar) : List (String × ℚ) :=
  [("T", bar.t), ("O", bar.o), ("H", bar.h), ("L", bar.l), ("C", bar.c)]

/-- Mutable interpreter state (the VMContext plus round counter, per-site
state map and the remembered bar timestamp). -/
structure VMState where
  stack : List Value
  locals : List Value
  globals : List Value
  output : List (String × Value)
  pc : Nat
  round : Nat
  localStates : List (Nat × FuncState)
  marketTs : ℚ
deriving DecidableEq, Repr

structure ExecResult where
  output : List (String × Value)
  vars : List (String × Value)
  globalVars : List (String × Value)
  lastResult : Value
deriving DecidableEq, Repr

namespace Interp

def maxStackSize : Nat := 1000

/-- Interpreter construction: locals and globals arrays allocated at their
declared sizes (JS array holes read as undefined), round 0, empty per-site
state.  No userGlobals are modelled: no claim passes any. -/
def init (p : IRProgram) : VMState :=
  { stack := [], locals := List.replicate p.main.localsCount Value.undef,
    globals := List.replicate p.main.globalsCount Value.undef,
    output := [], pc := 0, round := 0, localStates := [], marketTs := 0 }

/-- Push with the bounded-stack check. -/
def pushV (st : VMState) (v : Value) : Except Err VMState :=
  let st := { st with stack := v :: st.stack }
  if st.stack.length > maxStackSize then .error .runtimeError else .ok st

/-- Pop; underflow is a RuntimeError. -/
def popV (st : VMState) : Except Err (Value × VMState) :=
  match st.stack with
  | [] => .error .runtimeError
  | v :: rest => .ok (v, { st with stack := rest })

/-- The shared binary dispatcher: pop b then a, null short-circuits to null,
otherwise both operands must be numbers. -/
def binaryOp (st : VMState) (f : ℚ → ℚ → Except Err Value) : Except Err VMState := do
  let rb ← popV st
  let ra ← popV rb.2
  if ra.1 = .null ∨ rb.1 = .null then pushV ra.2 .null
  else do
    let a ← checkNumber ra.1
    let b ← checkNumber rb.1
    let v ← f a b
    pushV ra.2 v

def resolveLabel (p : IRProgram) (label : String) : Except Err Nat :=
  match lookupA p.labels label with
  | some pos => .ok pos
  | none => .error .runtimeError

/-- Pop argCount values, unshifting each onto the argument vector, so the
last popped value is the leftmost argument. -/
def popArgs (st : VMState) : Nat → Except Err (List Value × VMState)
  | 0 => .ok ([], st)
  | n + 1 => do
    let r ← popV st
    let rest ← popArgs r.2 n
    .ok (rest.1 ++ [r.1], rest.2)

/-- Dispatch of a single instruction.  Jumps assign pc (the loop increment
then lands one past the label's NOP); RETURN parks pc past the end
(MAX_SAFE_INTEGER in the source — any value ≥ the instruction count behaves
identically in the loop). -/
def executeInstruction (p : IRProgram) (st : VMState) (ins : Instr) : Except Err VMState :=
  match ins.opcode with
  | .LOAD_CONST c =>
    (match c with
    | some idx => pushV st ((p.constants[idx]?).getD .undef)
    | none => pushV st .undef)
  | .LOAD_VAR i => pushV st ((st.locals[i]?).getD .undef)
  | .LOAD_GLOBAL i => pushV st ((st.globals[i]?).getD .undef)
  | .STORE_VAR i => do
    let r ← popV st
    .ok { r.2 with locals := r.2.locals.set i r.1 }
  | .INIT_GLOBAL i =>
    if st.round > 1 then .ok st
    else do
      let r ← popV st
      .ok { r.2 with globals := r.2.globals.set i r.1 }
  | .STORE_GLOBAL i => do
    let r ← popV st
    .ok { r.2 with globals := r.2.globals.set i r.1 }
  | .STORE_OUTPUT _ =>
    (match ins.operandName with
    | some key =>
      if key != "" then do
        let r ← popV st
        .ok { r.2 with output := setA r.2.output key r.1 }
      else .ok st
    | none => .ok st)
  | .UNARY_MINUS => do
    let r ← popV st
    if r.1 = .null then pushV r.2 .null
    else do
      let q ← checkNumber r.1
      pushV r.2 (.num (-q))
  | .UNARY_PLUS => do
    let r ← popV st
    if r.1 = .null then pushV r.2 .null
    else do
      let q ← checkNumber r.1
      pushV r.2 (.num q)
  | .ADD => binaryOp st (fun a b => .ok (.num (a + b)))
  | .SUB => binaryOp st (fun a b => .ok (.num (a - b)))
  | .MUL => binaryOp st (fun a b => .ok (.num (a * b)))
  | .DIV => binaryOp st (fun a b =>
      if b = 0 then .error .divisionByZero else .ok (.num (a / b)))
  | .GT => binaryOp st (fun a b => .ok (.bool (b < a)))
  | .LT => binaryOp st (fun a b => .ok (.bool (a < b)))
  | .GTE => binaryOp st (fun a b => .ok (.bool (b ≤ a)))
  | .LTE => binaryOp st (fun a b => .ok (.bool (a ≤ b)))
  | .EQ => do
    let rb ← popV st
    let ra ← popV rb.2
    pushV ra.2 (.bool (ra.1 = rb.1))
  | .NEQ => do
    let rb ← popV st
    let ra ← popV rb.2
    pushV ra.2 (.bool (ra.1 ≠ rb.1))
  | .AND => do
    let rb ← popV st
    let ra ← popV rb.2
    pushV ra.2 (.bool (isTruthy ra.1 && isTruthy rb.1))
  | .OR => do
    let rb ← popV st
    let ra ← popV rb.2
    pushV ra.2 (.bool (isTruthy ra.1 || isTruthy rb.1))
  | .JUMP_IF_FALSE label => do
    let r ← popV st
    if !(isTruthy r.1) then do
      let pos ← resolveLabel p label
      .ok { r.2 with pc := pos }
    else .ok r.2
  | .JUMP_IF_TRUE label => do
    let r ← popV st
    if isTruthy r.1 then do
      let pos ← resolveLabel p label
      .ok { r.2 with pc := pos }
    else .ok r.2
  | .JUMP label => do
    let pos ← resolveLabel p label
    .ok { st with pc := pos }
  | .CALL_BUILTIN name argCount => do
    let r ← popArgs st argCount
    match funcRegistry name with
    | none => .error .invalidFunctionCall
    | some f =>
      let state := (lookupA r.2.localStates ins.id).getD []
      let res ← f r.1 state
      let st := { r.2 with localStates := setA r.2.localStates ins.id res.2 }
      pushV st res.1
  | .CALL_FUNC argCount => do
    let r ← popArgs st argCount
    let rf ← popV r.2
    -- no Value is callable: `typeof func !== 'function'` always fails
    match rf with
    | _ => .error .invalidFunctionCall
  | .POP => do
    let r ← popV st
    .ok r.2
  | .DUP =>
    (match st.stack with
    | [] => .error .runtimeError
    | v :: _ => pushV st v)
  | .SWAP => do
    let rb ← popV st
    let ra ← popV rb.2
    let st ← pushV ra.2 rb.1
    pushV st ra.1
  | .RETURN => .ok { st with pc := p.main.instructions.length }
  | .NOP => .ok st

/-- The dispatch loop, bounded by fuel (the compiler emits only forward
jumps; every modelled execution terminates within instructions.length + 1
steps per bar). -/
def execLoop (p : IRProgram) : Nat → VMState → Except Err VMState
  | 0, _ => .error .fuelExhausted
  | fuel + 1, st =>
    if h : st.pc < p.main.instructions.length then do
      let st2 ← executeInstruction p st (p.main.instructions[st.pc])
      execLoop p fuel { st2 with pc := st2.pc + 1 }
    else .ok st

/-- Write one bar entry (and its alias, when that alias has a slot) into the
globals vector. -/
def loadMarketEntry (p : IRProgram) (globals : List Value) (kv : String × ℚ) : List Value :=
  match lookupA p.gLookup kv.1 with
  | some index =>
    let globals := globals.set index (.num kv.2)
    (match marketDataAlias kv.1 with
    | some aliasName =>
      match lookupA p.gLookup aliasName with
      | some aliasIndex => globals.set aliasIndex (.num kv.2)
      | none => globals
    | none => globals)
  | none => globals

/-- The per-bar reset performed at the top of execute(): clear the stack,
clear the output map, rewind pc, advance the round counter, write the bar's
fields into their global slots and remember the timestamp.  Locals, globals
and per-site states carry over unchanged. -/
def resetForBar (p : IRProgram) (st : VMState) (bar : Bar) : VMState :=
  { st with
    stack := []
    output := []
    pc := 0
    round := st.round + 1
    globals := bar.entries.foldl (loadMarketEntry p) st.globals
    marketTs := bar.t }

/-- Result helper `createVarMap(values, names)`. -/
def createVarMap (values : List Value) (names : List (Option String)) :
    List (String × Value) :=
  (List.range values.length).foldl (fun m i =>
    match names[i]? with
    | some (some nm) => setA m nm ((values[i]?).getD .undef)
    | _ => m) []

/-- Method `execute(marketData)`: reset, load the bar, run the main function, and
assemble the result (lastResult is the top of whatever remains on the
stack, undefined when the stack is empty). -/
def execute (p : IRProgram) (st : VMState) (bar : Bar) :
    Except Err (ExecResult × VMState) := do
  let st := resetForBar p st bar
  let st ← execLoop p (p.main.instructions.length + 1) st
  .ok ({ output := st.output,
         vars := createVarMap st.locals p.localNames,
         globalVars := createVarMap st.globals p.globalNames,
         lastResult := st.stack.headD .undef }, st)

/-- Drive one VM over a sequence of bars, collecting the per-bar results. -/
def runBars (p : IRProgram) : VMState → List Bar → Except Err (List ExecResult × VMState)
  | st, [] => .ok ([], st)
  | st, bar :: rest => do
    let r ← execute p st bar
    let rr ← runBars p r.2 rest
    .ok (r.1 :: rr.1, rr.2)

end Interp

/-- The MaiVM pipeline for a parsed program: compile (debug flags only affect
unmodelled locations, no userGlobals) and run the bars on a fresh VM. -/
def MaiVM.run (program : List Stmt) (bars : List Bar) :
    Except Err (List ExecResult × VMState) := do
  let ir ← IRGen.gen program []
  Interp.runBars ir (Interp.init ir) bars

/-!
## Concrete programs and bars used by the claims about the compiler and VM
-/

/-- Program `VARIABLE: x := 0; 7;` -/
def progC2 : List Stmt :=
  [.varDecl [("x", some (.numLit 0))], .exprStmt (.numLit 7)]

/-- Program `x : 42;` -/
def progC4 : List Stmt :=
  [.exprStmt (.assign .displayAssign (.ident "x") (.numLit 42))]

/-- Program `IF C > 100 THEN BEGIN t := 5; END  u := t;` -/
def progC9 : List Stmt :=
  [.ifStmt (.binary .gt (.ident "C") (.numLit 100))
    (.block [.exprStmt (.assign .assign (.ident "t") (.numLit 5))]) none,
   .exprStmt (.assign .assign (.ident "u") (.ident "t"))]

def barA : Bar := ⟨1, 100, 105, 98, 102⟩

def barB : Bar := ⟨2, 102, 108, 101, 50⟩

def emptyIR : IRProgram :=
  { main := { name := "main", instructions := [], localsCount := 0, globalsCount := 0,
              maxStackDepth := 0 },
    constants := [], labels := [], gLookup := [], localNames := [], globalNames := [] }

def irC9 : IRProgram :=
  match IRGen.gen progC9 [] with
  | .ok p => p
  | .error _ => emptyIR

/-!
## Claims C1, C2, C4, C8, C9, C10
-/

/-- Claim C1 (code bug): INIT_GLOBAL is specified to pop on every round and
assign only on round 1.  As implemented, on any round ≥ 2 the dispatch breaks
before popping: the instruction leaves the whole VM state unchanged, so the
initializer value stays on the operand stack instead of being discarded.
On round 1 it does pop and assign the popped value to its global slot.
-/
theorem INIT_GLOBAL_no_pop_after_round_one (p : IRProgram) (st : VMState)
    (id i : Nat) (nm : Option String) :
    (2 ≤ st.round →
      Interp.executeInstruction p st ⟨id, .INIT_GLOBAL i, nm⟩ = .ok st) ∧
    (∀ v rest, st.stack = v :: rest →
      Interp.executeInstruction p { st with round := 1 } ⟨id, .INIT_GLOBAL i, nm⟩ =
        .ok { st with round := 1, stack := rest, globals := st.globals.set i v }) := by
  constructor
  · intro h2
    simp only [Interp.executeInstruction]
    rw [if_pos (by omega)]
  · intro v rest hstack
    simp only [Interp.executeInstruction]
    rw [if_neg (by omega)]
    simp only [Interp.popV, hstack]
    rfl

/-- Witness for C1: round 2 with one value on the stack leaves the state
unchanged, while round 1 pops it into global slot 0. -/
theorem INIT_GLOBAL_no_pop_after_round_one_witness :
    ((2 : Nat) ≤ 2 ∧
    Interp.executeInstruction emptyIR
      { stack := [Value.num 5], locals := [], globals := [Value.undef], output := [],
        pc := 0, round := 2, localStates := [], marketTs := 0 }
      ⟨0, .INIT_GLOBAL 0, none⟩ =
      .ok { stack := [Value.num 5], locals := [], globals := [Value.undef], output := [],
            pc := 0, round := 2, localStates := [], marketTs := 0 }) ∧
    Interp.executeInstruction emptyIR
      { stack := [Value.num 5], locals := [], globals := [Value.undef], output := [],
        pc := 0, round := 1, localStates := [], marketTs := 0 }
      ⟨0, .INIT_GLOBAL 0, none⟩ =
      .ok { stack := [], locals := [], globals := [Value.num 5], output := [],
            pc := 0, round := 1, localStates := [], marketTs := 0 } := by
  refine ⟨⟨by decide,
    (INIT_GLOBAL_no_pop_after_round_one emptyIR
      { stack := [Value.num 5], locals := [], globals := [Value.undef], output := [],
        pc := 0, round := 2, localStates := [], marketTs := 0 } 0 0 none).1 (by decide)⟩, ?_⟩
  exact ((INIT_GLOBAL_no_pop_after_round_one emptyIR
      { stack := [Value.num 5], locals := [], globals := [Value.undef], output := [],
        pc := 0, round := 1, localStates := [], marketTs := 0 } 0 0 none).2
    (Value.num 5) [] rfl).trans (by decide)

/-- Claim C2 (code bug): the ≤ 1 end-of-stream stack invariant fails from round 2
on for any program with an initialised VARIABLE declaration, because
INIT_GLOBAL stops popping (claim C1).  For `VARIABLE: x := 0; 7;` the second
round returns successfully with lastResult 7 while the operand stack holds
two values at end of stream.
-/
theorem stack_two_values_after_round_two :
    (MaiVM.run progC2 [barA, barB]).map
      (fun r => (r.2.stack.length, r.2.stack, r.1.map (fun e => e.lastResult))) =
    .ok (2, [Value.num 7, Value.num 0], [Value.num 7, Value.num 7]) := by
  set_option maxHeartbeats 2000000 in decide

/-- Claim C4 (corrected): lowering `x : e` emits DUP, the same store as `:=`,
then STORE_OUTPUT; after execution the variable holds e and output["x"] = e,
but the operand stack is left EMPTY — the DUP feeds the store and
STORE_OUTPUT consumes the original — so the value is not the expression's
result: a program whose last statement is `x : e;` reports an undefined
lastResult, not e.
-/
theorem display_assign_net_effect (q : ℚ) (bar : Bar) :
    (IRGen.gen [.exprStmt (.assign .displayAssign (.ident "x") (.numLit q))] []).map
      (fun p => p.main.instructions.map (fun ins => ins.opcode)) =
      .ok [.LOAD_CONST (some 0), .DUP, .STORE_VAR 0, .STORE_OUTPUT 0] ∧
    (MaiVM.run [.exprStmt (.assign .displayAssign (.ident "x") (.numLit q))] [bar]).map
      (fun r => r.1.map (fun e =>
        (lookupA e.output "x", lookupA e.vars "x", e.lastResult, e.output.length))) =
      .ok [(some (.num q), some (.num q), .undef, 1)] := by
  constructor
  · set_option maxHeartbeats 2000000 in rfl
  · set_option maxHeartbeats 2000000 in rfl

/-- Counterexample for C4 as stated: with e = 42, execution succeeds and
records output["x"] = 42, but lastResult is undefined, not 42. -/
theorem display_assign_lastResult_counterexample :
    (MaiVM.run progC4 [barA]).map
      (fun r => r.1.map (fun e => (lookupA e.output "x", e.lastResult, r.2.stack))) =
      .ok [(some (Value.num 42), Value.undef, [])] ∧
    Value.undef ≠ Value.num 42 := by
  refine ⟨by decide, by decide⟩

set_option maxHeartbeats 2000000 in
/-- Claim C8 (code bug): assignment expressions (`:=`, `:` and the rest) to any
protected word are rejected at compile time with InvalidAssignment — but the
declaration form is not: `VARIABLE: O := 0;` compiles successfully, reusing
pre-seeded global slot 0 and emitting its INIT_GLOBAL, because
generateVariableDeclaration never consults the protected-word set.
-/
theorem protected_word_declaration_compiles :
    (IRGen.gen [.varDecl [("O", some (.numLit 0))]] []).map
      (fun p => p.main.instructions.map (fun ins => ins.opcode)) =
      .ok [.LOAD_CONST (some 0), .INIT_GLOBAL 0] ∧
    (∀ (w : String) (op : AssignOp) (e : Expr), w ∈ protectedWords →
      IRGen.gen [.exprStmt (.assign op (.ident w) e)] [] = .error .invalidAssignment) := by
  constructor
  · decide
  · intro w op e h
    have hseed : seedGlobals GenCtx.initial (defaultGlobals ++ []) =
        { instructions := [], constants := [], varLookup := [],
          gVarLookup := [("O", 0), ("H", 1), ("L", 2), ("C", 3)], labels := [],
          labelCounter := 0, maxStackDepth := 0, curStackDepth := 0 } := by decide
    have h1 : generateExpression
        { instructions := [], constants := [], varLookup := [],
          gVarLookup := [("O", 0), ("H", 1), ("L", 2), ("C", 3)], labels := [],
          labelCounter := 0, maxStackDepth := 0, curStackDepth := 0 }
        (.assign op (.ident w) e) = .error .invalidAssignment := by
      simp only [generateExpression]
      rw [if_pos h]
    unfold IRGen.gen
    rw [hseed]
    unfold compileProgramGo
    unfold generateStatement
    simp only [h1]
    rfl

/-- Witness for C8: the assignment-expression half at w = "O". -/
theorem protected_word_declaration_compiles_witness :
    "O" ∈ protectedWords ∧
    IRGen.gen [.exprStmt (.assign .assign (.ident "O") (.numLit 0))] [] =
      .error .invalidAssignment := by
  exact ⟨by decide,
    protected_word_declaration_compiles.2 "O" .assign (.numLit 0) (by decide)⟩

/-- Claim C9 (corrected): the locals vector is NOT reset per bar.  The per-bar
reset clears only the stack, the output map and the pc (and advances the
round); locals persist across execute() calls.  Consequently a LOAD_VAR
executed before the bar's first STORE_VAR to that slot observes the value
stored during an earlier bar: in `IF C > 100 THEN BEGIN t := 5; END  u := t;`
bar 2 (C = 50) skips the store yet still assigns u = 5 from bar 1.
-/
theorem locals_persist_across_bars :
    (∀ (p : IRProgram) (st : VMState) (bar : Bar),
      (Interp.resetForBar p st bar).locals = st.locals ∧
      (Interp.resetForBar p st bar).stack = [] ∧
      (Interp.resetForBar p st bar).output = [] ∧
      (Interp.resetForBar p st bar).pc = 0 ∧
      (Interp.resetForBar p st bar).round = st.round + 1) ∧
    (Interp.runBars irC9 (Interp.init irC9) [barA, barB]).map
      (fun r => r.1.map (fun e => (lookupA e.vars "t", lookupA e.vars "u"))) =
      .ok [(some (.num 5), some (.num 5)), (some (.num 5), some (.num 5))] := by
  constructor
  · intro p st bar
    exact ⟨rfl, rfl, rfl, rfl, rfl⟩
  · decide

/-- Counterexample for C9 as stated: on bar 2 the actual VM reports
u = 5 (the round-1 value observed through the persisting local slot), whereas
executing the same bar from a state whose locals have been reset — what the
claim asserts happens — reports u undefined. -/
theorem locals_reset_counterexample :
    (Interp.execute irC9 (Interp.init irC9) barA).map (fun r1 =>
      ((Interp.execute irC9 r1.2 barB).map (fun r2 => lookupA r2.1.vars "u"),
       (Interp.execute irC9
          { r1.2 with locals := List.replicate irC9.main.localsCount Value.undef }
          barB).map (fun r2 => lookupA r2.1.vars "u"))) =
      .ok (.ok (some (Value.num 5)), .ok (some Value.undef)) ∧
    some (Value.num 5) ≠ some Value.undef := by
  refine ⟨by decide, by decide⟩

/-- Claim C10: for a display-assignment to a VARIABLE-declared (global-slot) name
g, the compiler stores to the global slot but still allocates a local slot
for g to carry the STORE_OUTPUT operand index; the local slot is never
written, so after every successful execute the result's vars map carries
g ↦ undefined while globalVars carries g ↦ the assigned value.
-/
theorem display_assign_global_var_maps (q : ℚ) (b1 : Bar) :
    (IRGen.gen [.varDecl [("g", some (.numLit 0))],
                .exprStmt (.assign .displayAssign (.ident "g") (.numLit q))] []).map
      (fun p => (p.main.instructions.map (fun ins => ins.opcode),
                 p.main.localsCount, p.localNames)) =
      .ok ([.LOAD_CONST (some 0), .INIT_GLOBAL 4, .LOAD_CONST (some 1), .DUP,
            .STORE_GLOBAL 4, .STORE_OUTPUT 0], 1, [some "g"]) ∧
    (MaiVM.run [.varDecl [("g", some (.numLit 0))],
                .exprStmt (.assign .displayAssign (.ident "g") (.numLit q))] [b1]).map
      (fun r => r.1.map (fun e =>
        (lookupA e.vars "g", lookupA e.globalVars "g", lookupA e.output "g"))) =
      .ok [(some .undef, some (.num q), some (.num q))] ∧
    (MaiVM.run [.varDecl [("g", some (.numLit 0))],
                .exprStmt (.assign .displayAssign (.ident "g") (.numLit 5))] [barA, barB]).map
      (fun r => r.1.map (fun e =>
        (lookupA e.vars "g", lookupA e.globalVars "g", lookupA e.output "g"))) =
      .ok [(some .undef, some (.num 5), some (.num 5)),
           (some .undef, some (.num 5), some (.num 5))] := by
  refine ⟨?_, ?_, ?_⟩
  · set_option maxHeartbeats 1000000 in rfl
  · set_option maxHeartbeats 1000000 in rfl
  · set_option maxHeartbeats 2000000 in decide

end Mai
